import Mathlib

/-!
Verification of the cioban reconciliation controller (src/cioban/cioban.py)
against its natural-language specification.

The development shallowly embeds the core reconciliation loop of
`Cioban` (class in src/cioban/cioban.py).  External collaborators
(docker platform, image registry, prometheus sink, notifier registry)
are modelled as a pure environment `Env` of oracles; the observable
behaviour of one cycle (`Cioban._run`) is a list of emitted events
(metric priming, update calls, counter increments, notifications).

Python-specific semantics that the embedding reproduces faithfully:
* `list.remove` during `for` iteration (the blacklist loop in
  `Cioban.get_services`): removal is by first occurrence of an equal
  element (docker-py model equality compares ids), and the loop's
  internal index is not adjusted, so the element after a removed one
  is skipped.
* rebinding a variable (`services = self.get_services()`) inside a
  `for service in services:` loop does not affect the ongoing
  iteration, which keeps consuming the originally captured list.
-/

/-- A transient per-cycle read of a platform service record
(docker `Service` object as used by cioban: `name`, `id`, `short_id`
and the image reference stored at
`attrs['Spec']['TaskTemplate']['ContainerSpec']['Image']`). -/
structure Service where
  id : String
  shortId : String
  name : String
  image : String
  deriving DecidableEq, Repr

/-- The subset of `Cioban.settings` that the reconciliation core reads:
`blacklist`, `notify_include_old_image`, `notify_include_new_image`. -/
structure Settings where
  blacklist : List String
  notifyIncludeOld : Bool
  notifyIncludeNew : Bool
  deriving DecidableEq, Repr

/-- The payload handed to `self.notifiers.notify(**notify)` at
src/cioban/cioban.py lines 175-183: service name and short id always,
old/new image only when the corresponding settings flag is set. -/
structure Notification where
  serviceName : String
  serviceShortId : String
  oldImage : Option String
  newImage : Option String
  deriving DecidableEq, Repr

/-- One observable side effect of a cycle of `Cioban._run`:
`primeMetric` is `PROM_SVC_UPDATE_COUNTER.labels(...).inc(0)` (line 139),
`updateCall` is `service.update(image=..., force_update=True)` (line 122,
recorded with the target service's name and id and the new image),
`incCounter` is `PROM_SVC_UPDATE_COUNTER.labels(...).inc(1)` (line 174),
`notify` is `self.notifiers.notify(**notify)` (line 183). -/
inductive Event
  | primeMetric (name id shortId : String)
  | updateCall (name id : String) (image : String)
  | incCounter (name id shortId : String)
  | notify (payload : Notification)
  deriving DecidableEq, Repr

/-- The service name an event refers to. -/
def Event.nameOf : Event → String
  | .primeMetric n _ _ => n
  | .updateCall n _ _ => n
  | .incCounter n _ _ => n
  | .notify p => p.serviceName

/-- Result of one `service.reload()` inside the convergence wait of
`Cioban._run` (lines 155-171): either the service is gone
(`docker.errors.NotFound`), or the reload succeeded and the refreshed
attrs report whether `UpdateStatus.State == 'updating'`, together with
the refreshed image reference in the attrs. -/
inductive Poll
  | notFound
  | ok (updating : Bool) (image : String)
  deriving DecidableEq, Repr

/-- How the convergence-wait loop exits, carrying the service's image
attribute as of the last successful reload (used by the notification
payload when `notify_include_new_image` is set). `diverged` models the
loop never exiting (every observed poll reports `updating`). -/
inductive WaitOutcome
  | converged (finalImage : String)
  | vanished (finalImage : String)
  | diverged
  deriving DecidableEq, Repr

/-- The `while updating:` loop of `Cioban._run` (lines 154-171): reload,
exit as `vanished` on `NotFound`, repoll while the platform reports
`updating`, exit as `converged` otherwise.  The finite poll list is the
sequence of reload results the environment produces; exhausting it means
the platform answers `updating` forever, i.e. the loop never exits. -/
def convergenceWait : List Poll → String → WaitOutcome
  | [], _ => .diverged
  | .notFound :: _, cur => .vanished cur
  | .ok true img :: rest, _ => convergenceWait rest img
  | .ok false img :: _, _ => .converged img

/-- Environment of external collaborators, as pure oracles:
`lists k` is the result of the k-th call to
`self.docker.services.list(filters=...)` during the cycle;
`registry` models `self.docker.images.get_registry_data` (`none` is an
`APIError`, `some d` exposes `attrs['Descriptor']['digest'] = d`);
`updateOk i` tells whether `service.update` on the service with id `i`
succeeds; `primeRaises i` tells whether the metric-priming statement
for the service with id `i` raises `docker.errors.NotFound`;
`polls i` is the sequence of reload results for the service with id `i`
inside the convergence wait. -/
structure Env where
  lists : Nat → List Service
  registry : String → Option String
  updateOk : String → Bool
  primeRaises : String → Bool
  polls : String → List Poll

/-- Python `str.isalpha` restricted to ASCII letters (cioban's
configuration strings are ASCII; full Unicode alphabetic classes are
not modelled). -/
def pyIsAlpha (c : Char) : Bool :=
  decide ((65 ≤ c.toNat ∧ c.toNat ≤ 90) ∨ (97 ≤ c.toNat ∧ c.toNat ≤ 122))

/-- ASCII decimal digit, as accepted by Python `int`. -/
def pyIsDigit (c : Char) : Bool :=
  decide (48 ≤ c.toNat ∧ c.toNat ≤ 57)

/-- ASCII whitespace stripped by Python `int` (space, tab, newline,
vertical tab, form feed, carriage return). -/
def pyIsSpace (c : Char) : Bool :=
  decide (c.toNat = 32 ∨ (9 ≤ c.toNat ∧ c.toNat ≤ 13))

/-- Strip leading and trailing whitespace, as Python `int` does before
parsing. -/
def pyStrip (cs : List Char) : List Char :=
  ((cs.dropWhile pyIsSpace).reverse.dropWhile pyIsSpace).reverse

/-- Numeric value of a list of ASCII digits. -/
def digitsToNat (cs : List Char) : Nat :=
  cs.foldl (fun n c => n * 10 + (c.toNat - 48)) 0

/-- Python `int(str)`: optional surrounding whitespace, optional sign,
then a nonempty run of digits; anything else raises `ValueError`
(modelled as `none`).  PEP 515 underscore grouping and non-ASCII digits
are not modelled (no claim exercises them). -/
def pyInt (cs : List Char) : Option Int :=
  match pyStrip cs with
  | [] => none
  | '-' :: ds => if ds ≠ [] ∧ ds.all pyIsDigit then some (-(digitsToNat ds : Int)) else none
  | '+' :: ds => if ds ≠ [] ∧ ds.all pyIsDigit then some ((digitsToNat ds : Int)) else none
  | ds => if ds.all pyIsDigit then some ((digitsToNat ds : Int)) else none

/-- The time units of the `relation` dict in `Cioban.__init__`
(src/cioban/cioban.py lines 41-47). -/
inductive SleepUnit
  | seconds
  | minutes
  | hours
  | days
  | weeks
  deriving DecidableEq, Repr

/-- The `relation` dict: which trailing letters name a unit. -/
def unitOfChar : Char → Option SleepUnit
  | 's' => some .seconds
  | 'm' => some .minutes
  | 'h' => some .hours
  | 'd' => some .days
  | 'w' => some .weeks
  | _ => none

/-- Sleep-interval parsing from `Cioban.__init__`
(src/cioban/cioban.py lines 48-60): if any character of the string is
alphabetic, parse all but the last character as an integer (raising on
failure) and require the last character to be a key of `relation`
(raising otherwise); else parse the whole string as an integer, unit
`minutes`.  `Except.error` models the raised `ValueError`.  The branch
for an empty string inside the alphabetic case is unreachable (an empty
string has no alphabetic character). -/
def parseSleepTime (s : String) : Except String (Int × SleepUnit) :=
  let cs := s.data
  if cs.any pyIsAlpha then
    match pyInt cs.dropLast with
    | none => .error (s ++ " not understood")
    | some n =>
      match cs.getLast? with
      | none => .error (s ++ " not understood")
      | some c =>
        match unitOfChar c with
        | some u => .ok (n, u)
        | none => .error (s ++ " not understood")
  else
    match pyInt cs with
    | none => .error (s ++ " not understood")
    | some n => .ok (n, .minutes)

/-- Seconds per sleep unit.  Models the semantics of the `pause`
collaborator used by `Cioban.run` (`pause.seconds`, `pause.minutes`,
`pause.hours`, `pause.days`, `pause.weeks`). -/
def unitSeconds : SleepUnit → Int
  | .seconds => 1
  | .minutes => 60
  | .hours => 3600
  | .days => 86400
  | .weeks => 604800

/-- Total sleep duration in seconds for a parsed interval. -/
def sleepSecondsOf (p : Int × SleepUnit) : Int :=
  p.1 * unitSeconds p.2

/-- Split a character list at the first occurrence of `sep`:
the characters before it, and (when `sep` occurs) the characters after
it.  This is Python `str.split(sep, 1)`. -/
def splitFirstAt (sep : Char) : List Char → List Char × Option (List Char)
  | [] => ([], none)
  | c :: rest =>
    if c = sep then ([], some rest)
    else
      let r := splitFirstAt sep rest
      (c :: r.1, r.2)

/-- Model of `Cioban.__get_image_parts` (src/cioban/cioban.py lines
104-115): `image_with_digest.split('@', 1)`, the left part is the
repository, the right part (absent when there is no `@`) is the
digest. -/
def getImageParts (imageWithDigest : String) : String × Option String :=
  let r := splitFirstAt '@' imageWithDigest.data
  (String.mk r.1, r.2.map String.mk)

/-- Result of `Cioban.__get_updated_image`: `noData` models the
`registry_data = None` path after an `APIError` (returns `None`, falsy),
`upToDate` models `updated_image = False` when the digests match, and
`update img` carries the `f-string` built new reference. -/
inductive Resolution
  | noData
  | upToDate
  | update (updatedImage : String)
  deriving DecidableEq, Repr

/-- Model of `Cioban.__get_updated_image` (src/cioban/cioban.py lines
85-102): query the registry; on failure return the falsy `None`
(`noData`); on success build `image ++ "@" ++ digest` and demote it to
the falsy `False` (`upToDate`) when the pinned sha equals the registry
digest.  A service without a pinned sha (`image_sha = None`) never
equals the digest, so it always yields an update. -/
def getUpdatedImage (registry : String → Option String) (image : String)
    (imageSha : Option String) : Resolution :=
  match registry image with
  | none => .noData
  | some digest =>
    if imageSha = some digest then .upToDate
    else .update (image ++ "@" ++ digest)

/-- The resolution `Cioban._run` computes for a service (lines 146-148):
parse the stored image reference, then ask the resolver. -/
def resolutionOf (env : Env) (s : Service) : Resolution :=
  getUpdatedImage env.registry (getImageParts s.image).1 (getImageParts s.image).2

/-- Fuel-bounded inner blacklist loop of `Cioban.get_services`
(src/cioban/cioban.py lines 188-192):
Python `for service in services: if service.name == b: services.remove(service)`.
The Python iterator keeps an index `i` that always advances by one;
`services.remove(service)` removes the first element equal to `service`
(docker-py model equality compares ids), so after a removal the element
that slid into position `i` is skipped.  The fuel starts at
`services.length - i` and suffices because every step advances `i` and
never lengthens the list. -/
def pyRemoveLoopGo (b : String) : Nat → List Service → Nat → List Service
  | 0, l, _ => l
  | fuel + 1, l, i =>
    if h : i < l.length then
      let s := l.get ⟨i, h⟩
      if s.name = b then pyRemoveLoopGo b fuel (l.eraseP (fun t => t.id == s.id)) (i + 1)
      else pyRemoveLoopGo b fuel l (i + 1)
    else l

/-- The inner blacklist loop, started at index `i`. -/
def pyRemoveLoop (b : String) (l : List Service) (i : Nat) : List Service :=
  pyRemoveLoopGo b (l.length - i) l i

/-- The full blacklist application of `Cioban.get_services`: one inner
removal loop per blacklist entry, in blacklist order. -/
def applyBlacklist (blacklist : List String) (services : List Service) : List Service :=
  blacklist.foldl (fun svcs b => pyRemoveLoop b svcs 0) services

/-- Model of `Cioban.get_services` (src/cioban/cioban.py lines 185-193):
the k-th platform listing (already filtered by the opaque
`settings['filters']`, which the core passes through uninterpreted),
with the blacklist removal loops applied. -/
def getServices (st : Settings) (env : Env) (k : Nat) : List Service :=
  applyBlacklist st.blacklist (env.lists k)

/-- The notification payload built at src/cioban/cioban.py lines
175-182: name and short id always; the pre-update image reference when
`notify_include_old_image` is set; the image reference currently in the
service's attrs when `notify_include_new_image` is set. -/
def mkNotification (st : Settings) (name shortId oldImg newImg : String) : Notification :=
  { serviceName := name
    serviceShortId := shortId
    oldImage := if st.notifyIncludeOld then some oldImg else none
    newImage := if st.notifyIncludeNew then some newImg else none }

/-- The body of the reconciliation loop of `Cioban._run` (lines
144-183) for one service: events emitted, number of extra
`get_services` calls made (1 exactly when the convergence wait observed
`NotFound`; its result is only rebound to the local `services` name and
never affects the ongoing iteration), and whether the convergence wait
never exits (`true` aborts the rest of the cycle). -/
def reconStep (st : Settings) (env : Env) (s : Service) : List Event × Nat × Bool :=
  match resolutionOf env s with
  | .noData => ([], 0, false)
  | .upToDate => ([], 0, false)
  | .update updImg =>
    if env.updateOk s.id then
      match convergenceWait (env.polls s.id) s.image with
      | .converged fimg =>
        ([.updateCall s.name s.id updImg, .incCounter s.name s.id s.shortId,
          .notify (mkNotification st s.name s.shortId s.image fimg)], 0, false)
      | .vanished fimg =>
        ([.updateCall s.name s.id updImg, .incCounter s.name s.id s.shortId,
          .notify (mkNotification st s.name s.shortId s.image fimg)], 1, false)
      | .diverged => ([.updateCall s.name s.id updImg], 0, true)
    else ([.updateCall s.name s.id updImg], 0, false)

/-- The reconciliation pass of `Cioban._run` (lines 144-183): process
the captured service list in order, threading the count `k` of
`get_services` calls made so far; stop (forever) when a convergence
wait diverges. -/
def reconPass (st : Settings) (env : Env) : List Service → Nat → List Event × Nat × Bool
  | [], k => ([], k, false)
  | s :: rest, k =>
    let step := reconStep st env s
    if step.2.2 then (step.1, k + step.2.1, true)
    else
      let r := reconPass st env rest (k + step.2.1)
      (step.1 ++ r.1, r.2.1, r.2.2)

/-- The metrics-priming pass of `Cioban._run` (lines 135-142): iterate
over the originally captured list; a `NotFound` during priming emits no
metric and rebinds the local `services` name to a fresh
`get_services()` result (which the ongoing iteration ignores; the
reconciliation pass then reads the rebound name).  Returns the emitted
events, the updated `get_services` call count, and the final value of
the `services` variable. -/
def primingPass (st : Settings) (env : Env) : List Service → Nat → List Service → List Event × Nat × List Service
  | [], k, cur => ([], k, cur)
  | s :: rest, k, cur =>
    if env.primeRaises s.id then
      primingPass st env rest (k + 1) (getServices st env k)
    else
      let r := primingPass st env rest k cur
      (.primeMetric s.name s.id s.shortId :: r.1, r.2.1, r.2.2)

/-- One full cycle of `Cioban._run`: initial `get_services` (call 0),
the priming pass over it, then the reconciliation pass over the final
value of the `services` variable.  Returns all emitted events in order,
and whether the cycle hung in a convergence wait. -/
def runCycle (st : Settings) (env : Env) : List Event × Bool :=
  let l0 := getServices st env 0
  let p := primingPass st env l0 1 l0
  let r := reconPass st env p.2.2 p.2.1
  (p.1 ++ r.1, r.2.2)

/-- The list the reconciliation pass of a cycle iterates over: the
value of the `services` variable after the priming pass. -/
def reconList (st : Settings) (env : Env) : List Service :=
  (primingPass st env (getServices st env 0) 1 (getServices st env 0)).2.2

/-! ### Image reference parser lemmas -/

lemma splitFirstAt_of_not_mem (sep : Char) (cs : List Char) (h : sep ∉ cs) :
    splitFirstAt sep cs = (cs, none) := by
  induction cs with
  | nil => rfl
  | cons c rest ih =>
    have hc : ¬c = sep := fun e => h (e ▸ List.mem_cons_self c rest)
    simp [splitFirstAt, hc, ih fun hm => h (List.mem_cons_of_mem _ hm)]

lemma splitFirstAt_append (sep : Char) (a b : List Char) (h : sep ∉ a) :
    splitFirstAt sep (a ++ sep :: b) = (a, some b) := by
  induction a with
  | nil => simp [splitFirstAt]
  | cons c rest ih =>
    have hc : ¬c = sep := fun e => h (e ▸ List.mem_cons_self c rest)
    simp [splitFirstAt, hc, ih fun hm => h (List.mem_cons_of_mem _ hm)]

lemma splitFirstAt_fst_not_mem (sep : Char) (cs : List Char) :
    sep ∉ (splitFirstAt sep cs).1 := by
  induction cs with
  | nil => simp [splitFirstAt]
  | cons c rest ih =>
    by_cases hc : c = sep
    · simp [splitFirstAt, hc]
    · have hsplit : (splitFirstAt sep (c :: rest)).1 = c :: (splitFirstAt sep rest).1 := by
        simp [splitFirstAt, hc]
      rw [hsplit]
      intro hmem
      rcases List.mem_cons.mp hmem with e | hm
      · exact hc e.symm
      · exact ih hm

/-- C9: the image reference parser splits on the first `@`; the left
part is the repository, the right part (when an `@` is present) is the
digest, and a reference without `@` parses to the whole string with no
digest.  `getImageParts` is a plain total function (no failure modes)
by construction, so malformed input simply lands in one of these two
cases. -/
theorem c9_image_parts_split_first_at :
    (∀ cs : List Char, '@' ∉ cs →
      getImageParts (String.mk cs) = (String.mk cs, none))
    ∧ (∀ a b : List Char, '@' ∉ a →
        getImageParts (String.mk (a ++ '@' :: b)) = (String.mk a, some (String.mk b))) := by
  constructor
  · intro cs h
    simp [getImageParts, splitFirstAt_of_not_mem '@' cs h]
  · intro a b h
    simp [getImageParts, splitFirstAt_append '@' a b h]

/-- Witness for C9 at concrete inputs. -/
theorem c9_image_parts_split_first_at_witness :
    getImageParts (String.mk ['r', 'x']) = (String.mk ['r', 'x'], none)
    ∧ getImageParts (String.mk (['r'] ++ '@' :: ['d', '@', 'e']))
        = (String.mk ['r'], some (String.mk ['d', '@', 'e'])) :=
  ⟨c9_image_parts_split_first_at.1 ['r', 'x'] (by decide),
   c9_image_parts_split_first_at.2 ['r'] ['d', '@', 'e'] (by decide)⟩

lemma getImageParts_compose (repo digest : String) (h : '@' ∉ repo.data) :
    getImageParts (repo ++ "@" ++ digest) = (repo, some digest) := by
  have hdata : (repo ++ "@" ++ digest).data = repo.data ++ '@' :: digest.data := by
    rw [String.data_append, String.data_append]
    simp
  rw [getImageParts, hdata, splitFirstAt_append '@' repo.data digest.data h]
  simp

/-- C10: composing a repository (free of `@`) with a digest via
`repository ++ "@" ++ digest` — exactly how `Cioban.__get_updated_image`
builds its update reference — re-parses to that repository and digest;
moreover every update plan the resolver emits re-parses to the digest
the registry returned, and the repository half that the parser itself
produces never contains `@`, so the resolver's input always satisfies
the premise. -/
theorem c10_compose_parse_roundtrip :
    (∀ repo digest : String, '@' ∉ repo.data →
      getImageParts (repo ++ "@" ++ digest) = (repo, some digest))
    ∧ (∀ (reg : String → Option String) (image : String) (sha : Option String) (u : String),
        '@' ∉ image.data → getUpdatedImage reg image sha = .update u →
        ∃ d, reg image = some d ∧ getImageParts u = (image, some d))
    ∧ (∀ s : String, '@' ∉ (getImageParts s).1.data) := by
  refine ⟨getImageParts_compose, ?_, ?_⟩
  · intro reg image sha u h hupd
    rw [getUpdatedImage] at hupd
    cases hreg : reg image with
    | none => rw [hreg] at hupd; exact absurd hupd (by simp)
    | some d =>
      rw [hreg] at hupd
      by_cases hsha : sha = some d
      · simp [hsha] at hupd
      · simp only [hsha, if_false, if_neg hsha] at hupd
        have hu : image ++ "@" ++ d = u := by
          cases hupd
          rfl
        exact ⟨d, rfl, hu ▸ getImageParts_compose image d h⟩
  · intro s
    exact splitFirstAt_fst_not_mem '@' s.data

/-- Witness for C10 at concrete inputs. -/
theorem c10_compose_parse_roundtrip_witness :
    getImageParts ((String.mk ['r', 'p']) ++ "@" ++ (String.mk ['d', '1']))
      = (String.mk ['r', 'p'], some (String.mk ['d', '1']))
    ∧ (∃ d, (fun r => if r = String.mk ['r', 'p'] then some (String.mk ['d', '1']) else none)
          (String.mk ['r', 'p']) = some d
        ∧ getImageParts (String.mk ['r', 'p', '@', 'd', '1'])
            = (String.mk ['r', 'p'], some d)) := by
  constructor
  · exact c10_compose_parse_roundtrip.1 (String.mk ['r', 'p']) (String.mk ['d', '1']) (by decide)
  · exact c10_compose_parse_roundtrip.2.1
      (fun r => if r = String.mk ['r', 'p'] then some (String.mk ['d', '1']) else none)
      (String.mk ['r', 'p']) none (String.mk ['r', 'p', '@', 'd', '1'])
      (by decide) (by decide)

/-! ### Sleep-interval parsing lemmas -/

lemma pyIsDigit_not_alpha {c : Char} (h : pyIsDigit c = true) : pyIsAlpha c = false := by
  simp [pyIsDigit] at h
  simp [pyIsAlpha]
  omega

lemma pyIsDigit_not_space {c : Char} (h : pyIsDigit c = true) : pyIsSpace c = false := by
  simp [pyIsDigit] at h
  simp [pyIsSpace]
  omega

lemma dropWhile_of_all_not {α : Type} {p : α → Bool} {l : List α}
    (h : ∀ x ∈ l, p x = false) : l.dropWhile p = l := by
  cases l with
  | nil => rfl
  | cons a l2 => simp [List.dropWhile_cons, h a (List.mem_cons_self a l2)]

lemma pyStrip_digits {cs : List Char} (h : cs.all pyIsDigit = true) : pyStrip cs = cs := by
  have hmem : ∀ x ∈ cs, pyIsDigit x = true := List.all_eq_true.mp h
  have h1 : cs.dropWhile pyIsSpace = cs :=
    dropWhile_of_all_not fun x hx => pyIsDigit_not_space (hmem x hx)
  have h2 : cs.reverse.dropWhile pyIsSpace = cs.reverse :=
    dropWhile_of_all_not fun x hx => pyIsDigit_not_space (hmem x (List.mem_reverse.mp hx))
  rw [pyStrip, h1, h2, List.reverse_reverse]

lemma pyInt_digits {cs : List Char} (hne : cs ≠ []) (h : cs.all pyIsDigit = true) :
    pyInt cs = some ((digitsToNat cs : Int)) := by
  rw [pyInt, pyStrip_digits h]
  split
  · exact absurd rfl hne
  · have hd : pyIsDigit '-' = true := by
      have := List.all_eq_true.mp h
      exact this '-' (List.mem_cons_self _ _)
    exact absurd hd (by decide)
  · have hd : pyIsDigit '+' = true := by
      have := List.all_eq_true.mp h
      exact this '+' (List.mem_cons_self _ _)
    exact absurd hd (by decide)
  · rw [if_pos h]

lemma any_alpha_of_digits {cs : List Char} (h : cs.all pyIsDigit = true) :
    cs.any pyIsAlpha = false := by
  rw [List.any_eq_false]
  intro x hx
  rw [pyIsDigit_not_alpha (List.all_eq_true.mp h x hx)]
  simp

lemma unitOfChar_alpha {c : Char} {u : SleepUnit} (h : unitOfChar c = some u) :
    pyIsAlpha c = true := by
  rw [unitOfChar.eq_def] at h
  split at h
  · decide
  · decide
  · decide
  · decide
  · decide
  · exact absurd h (by simp)

lemma parseSleepTime_digits {cs : List Char} (hne : cs ≠ []) (h : cs.all pyIsDigit = true) :
    parseSleepTime (String.mk cs) = .ok ((digitsToNat cs : Int), .minutes) := by
  have hany : ¬((String.mk cs).data.any pyIsAlpha = true) := by
    show ¬(cs.any pyIsAlpha = true)
    rw [any_alpha_of_digits h]
    simp
  rw [parseSleepTime]
  simp only [if_neg hany]
  have hpi : pyInt (String.mk cs).data = some ((digitsToNat cs : Int)) := pyInt_digits hne h
  rw [hpi]

lemma parseSleepTime_unit {cs : List Char} {c : Char} {u : SleepUnit}
    (hne : cs ≠ []) (h : cs.all pyIsDigit = true) (hu : unitOfChar c = some u) :
    parseSleepTime (String.mk (cs ++ [c])) = .ok ((digitsToNat cs : Int), u) := by
  have hany : (String.mk (cs ++ [c])).data.any pyIsAlpha = true := by
    show (cs ++ [c]).any pyIsAlpha = true
    rw [List.any_append]
    simp [unitOfChar_alpha hu]
  rw [parseSleepTime]
  simp only [if_pos hany]
  have hdl : (String.mk (cs ++ [c])).data.dropLast = cs := List.dropLast_concat
  have hgl : (String.mk (cs ++ [c])).data.getLast? = some c := List.getLast?_concat cs
  rw [hdl, pyInt_digits hne h, hgl]
  simp [hu]

lemma parseSleepTime_bad_unit {cs : List Char} {c : Char}
    (halpha : pyIsAlpha c = true) (hu : unitOfChar c = none) :
    ∃ msg, parseSleepTime (String.mk (cs ++ [c])) = .error msg := by
  have hany : (String.mk (cs ++ [c])).data.any pyIsAlpha = true := by
    show (cs ++ [c]).any pyIsAlpha = true
    rw [List.any_append]
    simp [halpha]
  rw [parseSleepTime]
  simp only [if_pos hany]
  have hdl : (String.mk (cs ++ [c])).data.dropLast = cs := List.dropLast_concat
  have hgl : (String.mk (cs ++ [c])).data.getLast? = some c := List.getLast?_concat cs
  rw [hdl, hgl]
  cases hpi : pyInt cs with
  | none => exact ⟨_, rfl⟩
  | some n => exact ⟨String.mk (cs ++ [c]) ++ " not understood", by simp [hu]⟩

lemma parseSleepTime_bad_int {s : String}
    (hany : s.data.any pyIsAlpha = true) (hpi : pyInt s.data.dropLast = none) :
    ∃ msg, parseSleepTime s = .error msg := by
  rw [parseSleepTime]
  simp only [if_pos hany]
  rw [hpi]
  exact ⟨_, rfl⟩

/-- C4: sleep-interval parsing maps a bare integer string to that many
minutes, and an integer followed by a unit letter s/m/h/d/w to
seconds/minutes/hours/days/weeks ("5m" is 300s, "30" is 1800s, "2h" is
7200s, "3w" is 1814400s), and raises a `ValueError` (a fatal
configuration error in `Cioban.__init__`, which runs before `run` ever
enters the loop) for any other trailing letter or a non-numeric leading
portion ("abc" and "5x" both raise). -/
theorem c4_sleep_interval_parsing :
    (parseSleepTime "5m").map sleepSecondsOf = .ok 300
    ∧ (parseSleepTime "30").map sleepSecondsOf = .ok 1800
    ∧ (parseSleepTime "2h").map sleepSecondsOf = .ok 7200
    ∧ (parseSleepTime "3w").map sleepSecondsOf = .ok 1814400
    ∧ (∃ msg, parseSleepTime "abc" = .error msg)
    ∧ (∃ msg, parseSleepTime "5x" = .error msg)
    ∧ (∀ cs : List Char, cs ≠ [] → cs.all pyIsDigit = true →
        parseSleepTime (String.mk cs) = .ok ((digitsToNat cs : Int), .minutes))
    ∧ (∀ (cs : List Char) (c : Char) (u : SleepUnit), cs ≠ [] → cs.all pyIsDigit = true →
        unitOfChar c = some u →
        parseSleepTime (String.mk (cs ++ [c])) = .ok ((digitsToNat cs : Int), u))
    ∧ (∀ (cs : List Char) (c : Char), pyIsAlpha c = true → unitOfChar c = none →
        ∃ msg, parseSleepTime (String.mk (cs ++ [c])) = .error msg)
    ∧ (∀ s : String, s.data.any pyIsAlpha = true → pyInt s.data.dropLast = none →
        ∃ msg, parseSleepTime s = .error msg) := by
  refine ⟨rfl, rfl, rfl, rfl, ⟨"abc not understood", rfl⟩,
    ⟨"5x not understood", rfl⟩,
    fun cs hne h => parseSleepTime_digits hne h,
    fun cs c u hne h hu => parseSleepTime_unit hne h hu,
    fun cs c ha hu => parseSleepTime_bad_unit ha hu,
    fun s ha hp => parseSleepTime_bad_int ha hp⟩

/-- Witness for C4 at concrete inputs. -/
theorem c4_sleep_interval_parsing_witness :
    parseSleepTime (String.mk ['4']) = .ok ((digitsToNat ['4'] : Int), .minutes)
    ∧ parseSleepTime (String.mk (['7'] ++ ['d'])) = .ok ((digitsToNat ['7'] : Int), .days)
    ∧ (∃ msg, parseSleepTime (String.mk (['1'] ++ ['q'])) = .error msg)
    ∧ (∃ msg, parseSleepTime "zz" = .error msg) :=
  ⟨c4_sleep_interval_parsing.2.2.2.2.2.2.1 ['4'] (by decide) (by decide),
   c4_sleep_interval_parsing.2.2.2.2.2.2.2.1 ['7'] 'd' .days (by decide) (by decide) (by decide),
   c4_sleep_interval_parsing.2.2.2.2.2.2.2.2.1 ['1'] 'q' (by decide) (by decide),
   c4_sleep_interval_parsing.2.2.2.2.2.2.2.2.2 "zz" (by decide) (by decide)⟩

/-! ### Blacklist filter lemmas -/

lemma eraseP_id_get (l : List Service) (i : Nat) (h : i < l.length)
    (hid : l.Pairwise (fun a c => a.id ≠ c.id)) :
    l.eraseP (fun t => t.id == (l.get ⟨i, h⟩).id) = l.take i ++ l.drop (i + 1) := by
  induction l generalizing i with
  | nil => simp at h
  | cons x tl ih =>
    cases i with
    | zero => simp [List.eraseP_cons]
    | succ j =>
      have hj : j < tl.length := by simpa using h
      have hget : (x :: tl).get ⟨j + 1, h⟩ = tl.get ⟨j, hj⟩ := rfl
      have hx : (x.id == (tl.get ⟨j, hj⟩).id) = false := by
        have hne := (List.pairwise_cons.mp hid).1 (tl.get ⟨j, hj⟩) (List.get_mem tl j hj)
        rw [List.get_eq_getElem] at hne
        simp [hne]
      rw [hget, List.eraseP_cons]
      simp only [hx, cond_false]
      rw [ih j hj (List.pairwise_cons.mp hid).2]
      simp

lemma takeDrop_sublist {α : Type} (l : List α) (i : Nat) :
    (l.take i ++ l.drop (i + 1)).Sublist l := by
  conv_rhs => rw [← List.take_append_drop i l]
  by_cases h : i < l.length
  · rw [List.drop_eq_getElem_cons h]
    exact List.Sublist.append_left (List.sublist_cons_self _ _) _
  · rw [List.drop_eq_nil_of_le (by omega), List.drop_eq_nil_of_le (by omega)]

lemma pyRemoveLoopGo_eq_filter (b : String) :
    ∀ (fuel : Nat) (l : List Service) (i : Nat),
      l.length - i ≤ fuel →
      l.Pairwise (fun a c => a.name ≠ c.name) →
      l.Pairwise (fun a c => a.id ≠ c.id) →
      pyRemoveLoopGo b fuel l i
        = l.take i ++ (l.drop i).filter (fun s => !(s.name == b)) := by
  intro fuel
  induction fuel with
  | zero =>
    intro l i hf _ _
    have hle : l.length ≤ i := by omega
    rw [pyRemoveLoopGo, List.take_of_length_le hle, List.drop_eq_nil_of_le hle]
    simp
  | succ fuel ih =>
    intro l i hf hn hid
    by_cases h : i < l.length
    · by_cases hname : (l.get ⟨i, h⟩).name = b
      · have hstep : pyRemoveLoopGo b (fuel + 1) l i
            = pyRemoveLoopGo b fuel (l.eraseP (fun t => t.id == (l.get ⟨i, h⟩).id)) (i + 1) := by
          rw [pyRemoveLoopGo]
          rw [dif_pos h, if_pos hname]
        rw [hstep, eraseP_id_get l i h hid]
        have hsub := takeDrop_sublist l i
        have hlen : (l.take i ++ l.drop (i + 1)).length = l.length - 1 := by
          rw [List.length_append, List.length_take, List.length_drop]
          omega
        have hrec := ih (l.take i ++ l.drop (i + 1)) (i + 1)
          (by rw [hlen]; omega) (List.Pairwise.sublist hsub hn) (List.Pairwise.sublist hsub hid)
        rw [hrec]
        have htake : (l.take i ++ l.drop (i + 1)).take (i + 1)
            = l.take i ++ (l.drop (i + 1)).take 1 := by
          rw [List.take_append_eq_append_take, List.take_take]
          have : min (i + 1) i = i := by omega
          rw [this, List.length_take]
          have : min i l.length = i := by omega
          rw [this]
          have : i + 1 - i = 1 := by omega
          rw [this]
        have hdrop : (l.take i ++ l.drop (i + 1)).drop (i + 1) = l.drop (i + 2) := by
          rw [List.drop_append_eq_append_drop]
          have h1 : (l.take i).length = i := by
            rw [List.length_take]; omega
          rw [h1]
          rw [List.drop_eq_nil_of_le (by rw [List.length_take]; omega)]
          have : i + 1 - i = 1 := by omega
          rw [this, List.drop_drop]
          simp
        rw [htake, hdrop]
        have hnodrop : ∀ t ∈ l.drop (i + 1), ¬(t.name = b) := by
          intro t ht
          have hpw : (l.drop i).Pairwise (fun a c => a.name ≠ c.name) :=
            List.Pairwise.sublist (List.drop_sublist i l) hn
          rw [List.drop_eq_getElem_cons h] at hpw
          have := (List.pairwise_cons.mp hpw).1 t ht
          rw [List.get_eq_getElem] at hname
          rw [hname] at this
          exact fun e => this e.symm
        have hfd1 : (l.drop (i + 1)).filter (fun s => !(s.name == b)) = l.drop (i + 1) := by
          rw [List.filter_eq_self]
          intro t ht
          simp [hnodrop t ht]
        have hfd2 : (l.drop (i + 2)).filter (fun s => !(s.name == b)) = l.drop (i + 2) := by
          rw [List.filter_eq_self]
          intro t ht
          have ht1 : t ∈ l.drop (i + 1) := by
            have : l.drop (i + 2) = (l.drop (i + 1)).drop 1 := by
              rw [List.drop_drop]
            rw [this] at ht
            exact List.mem_of_mem_drop ht
          simp [hnodrop t ht1]
        rw [hfd2]
        rw [List.drop_eq_getElem_cons h]
        rw [List.get_eq_getElem] at hname
        rw [List.filter_cons, if_neg (by simp [hname])]
        rw [hfd1, List.append_assoc]
        rw [show (l.drop (i + 1)).take 1 ++ l.drop (i + 2) = l.drop (i + 1) from by
          have : l.drop (i + 2) = (l.drop (i + 1)).drop 1 := by rw [List.drop_drop]
          rw [this, List.take_append_drop]]
      · have hstep : pyRemoveLoopGo b (fuel + 1) l i = pyRemoveLoopGo b fuel l (i + 1) := by
          rw [pyRemoveLoopGo]
          rw [dif_pos h, if_neg hname]
        rw [hstep, ih l (i + 1) (by omega) hn hid]
        rw [List.get_eq_getElem] at hname
        rw [List.drop_eq_getElem_cons h, List.filter_cons, if_pos (by simp [hname])]
        rw [show l.take (i + 1) = l.take i ++ [l[i]] from by
          rw [List.take_succ, List.getElem?_eq_getElem h]
          rfl]
        rw [List.append_assoc]
        rfl
    · have hle : l.length ≤ i := by omega
      rw [pyRemoveLoopGo, dif_neg h, List.take_of_length_le hle, List.drop_eq_nil_of_le hle]
      simp

lemma pyRemoveLoop_eq_filter (b : String) (l : List Service)
    (hn : l.Pairwise (fun a c => a.name ≠ c.name))
    (hid : l.Pairwise (fun a c => a.id ≠ c.id)) :
    pyRemoveLoop b l 0 = l.filter (fun s => !(s.name == b)) := by
  rw [pyRemoveLoop]
  rw [pyRemoveLoopGo_eq_filter b (l.length - 0) l 0 (by omega) hn hid]
  simp

lemma applyBlacklist_eq_filter (bl : List String) (l : List Service)
    (hn : l.Pairwise (fun a c => a.name ≠ c.name))
    (hid : l.Pairwise (fun a c => a.id ≠ c.id)) :
    applyBlacklist bl l = l.filter (fun s => !(bl.contains s.name)) := by
  induction bl generalizing l with
  | nil =>
    rw [applyBlacklist]
    simp [List.filter_eq_self]
  | cons b bl2 ih =>
    have hstep : applyBlacklist (b :: bl2) l = applyBlacklist bl2 (pyRemoveLoop b l 0) := rfl
    rw [hstep, pyRemoveLoop_eq_filter b l hn hid]
    rw [ih (l.filter (fun s => !(s.name == b)))
      (List.Pairwise.sublist (List.filter_sublist l) hn)
      (List.Pairwise.sublist (List.filter_sublist l) hid)]
    rw [List.filter_filter]
    apply List.filter_congr
    intro x _
    rw [List.contains_cons]
    rw [Bool.not_or, Bool.and_comm]

lemma mem_applyBlacklist_not_blacklisted {bl : List String} {l : List Service}
    (hn : l.Pairwise (fun a c => a.name ≠ c.name))
    (hid : l.Pairwise (fun a c => a.id ≠ c.id))
    {s : Service} (hs : s ∈ applyBlacklist bl l) : s.name ∉ bl := by
  rw [applyBlacklist_eq_filter bl l hn hid] at hs
  have := (List.mem_filter.mp hs).2
  simp at this
  simpa using this

lemma mem_getServices_not_blacklisted (st : Settings) (env : Env) (k : Nat)
    (hn : (env.lists k).Pairwise (fun a c => a.name ≠ c.name))
    (hid : (env.lists k).Pairwise (fun a c => a.id ≠ c.id))
    {s : Service} (hs : s ∈ getServices st env k) : s.name ∉ st.blacklist :=
  mem_applyBlacklist_not_blacklisted hn hid hs

lemma getServices_pairwise_names (st : Settings) (env : Env) (k : Nat)
    (hn : (env.lists k).Pairwise (fun a c => a.name ≠ c.name))
    (hid : (env.lists k).Pairwise (fun a c => a.id ≠ c.id)) :
    (getServices st env k).Pairwise (fun a c => a.name ≠ c.name) := by
  rw [getServices, applyBlacklist_eq_filter _ _ hn hid]
  exact List.Pairwise.sublist (List.filter_sublist _) hn

lemma getServices_pairwise_ids (st : Settings) (env : Env) (k : Nat)
    (hn : (env.lists k).Pairwise (fun a c => a.name ≠ c.name))
    (hid : (env.lists k).Pairwise (fun a c => a.id ≠ c.id)) :
    (getServices st env k).Pairwise (fun a c => a.id ≠ c.id) := by
  rw [getServices, applyBlacklist_eq_filter _ _ hn hid]
  exact List.Pairwise.sublist (List.filter_sublist _) hid

/-! ### Priming pass lemmas -/

lemma primingPass_events (st : Settings) (env : Env) :
    ∀ (l : List Service) (k : Nat) (cur : List Service),
      (primingPass st env l k cur).1
        = (l.filter (fun s => !(env.primeRaises s.id))).map
            (fun s => Event.primeMetric s.name s.id s.shortId) := by
  intro l
  induction l with
  | nil => intro k cur; rfl
  | cons s rest ih =>
    intro k cur
    by_cases hr : env.primeRaises s.id
    · rw [primingPass]
      rw [if_pos hr, ih, List.filter_cons, if_neg (by simp [hr])]
    · rw [primingPass]
      rw [if_neg hr, List.filter_cons, if_pos (by simp [hr])]
      rw [List.map_cons]
      exact congrArg _ (ih k cur)

lemma primingPass_counter (st : Settings) (env : Env) :
    ∀ (l : List Service) (k : Nat) (cur : List Service),
      (primingPass st env l k cur).2.1
        = k + (l.filter (fun s => env.primeRaises s.id)).length := by
  intro l
  induction l with
  | nil => intro k cur; simp [primingPass]
  | cons s rest ih =>
    intro k cur
    by_cases hr : env.primeRaises s.id
    · rw [primingPass, if_pos hr, ih, List.filter_cons, if_pos (by simp [hr])]
      simp
      omega
    · rw [primingPass, if_neg hr]
      show (primingPass st env rest k cur).2.1 = _
      rw [ih, List.filter_cons, if_neg (by simp [hr])]

lemma primingPass_final (st : Settings) (env : Env) :
    ∀ (l : List Service) (k : Nat) (cur : List Service),
      (primingPass st env l k cur).2.2
        = if (l.filter (fun s => env.primeRaises s.id)).length = 0 then cur
          else getServices st env (k + (l.filter (fun s => env.primeRaises s.id)).length - 1) := by
  intro l
  induction l with
  | nil => intro k cur; simp [primingPass]
  | cons s rest ih =>
    intro k cur
    by_cases hr : env.primeRaises s.id
    · rw [primingPass, if_pos hr, ih]
      have hfc : (s :: rest).filter (fun t => env.primeRaises t.id)
          = s :: rest.filter (fun t => env.primeRaises t.id) := by
        rw [List.filter_cons, if_pos (by simp [hr])]
      have hlen : (s :: rest.filter (fun t => env.primeRaises t.id)).length
          = (rest.filter (fun t => env.primeRaises t.id)).length + 1 := by simp
      rw [hfc, hlen]
      rcases Nat.eq_zero_or_pos (rest.filter (fun t => env.primeRaises t.id)).length with hz | hp
      · rw [hz]
        simp
      · have h1 : ¬((rest.filter (fun t => env.primeRaises t.id)).length = 0) := by omega
        have h2 : ¬((rest.filter (fun t => env.primeRaises t.id)).length + 1 = 0) := by omega
        rw [if_neg h1, if_neg h2]
        congr 1
        omega
    · rw [primingPass, if_neg hr]
      show (primingPass st env rest k cur).2.2 = _
      rw [ih]
      have hfc : (s :: rest).filter (fun t => env.primeRaises t.id)
          = rest.filter (fun t => env.primeRaises t.id) := by
        rw [List.filter_cons, if_neg (by simp [hr])]
      rw [hfc]

lemma reconList_eq (st : Settings) (env : Env) :
    reconList st env
      = getServices st env
          (((getServices st env 0).filter (fun s => env.primeRaises s.id)).length) := by
  rw [reconList, primingPass_final]
  rcases Nat.eq_zero_or_pos
      (((getServices st env 0).filter (fun s => env.primeRaises s.id)).length) with hz | hp
  · rw [hz]
    simp
  · rw [if_neg (by omega)]
    have : 1 + ((getServices st env 0).filter (fun s => env.primeRaises s.id)).length - 1
        = ((getServices st env 0).filter (fun s => env.primeRaises s.id)).length := by omega
    rw [this]

/-! ### Reconciliation pass lemmas -/

/-- Does this event increment the update counter of the service with
id `i`? -/
def isIncId (i : String) : Event → Bool
  | .incCounter _ i2 _ => i2 == i
  | _ => false

/-- Is this event a notification naming service `n`? -/
def isNotifyName (n : String) : Event → Bool
  | .notify p => p.serviceName == n
  | _ => false

/-- Is this event an update call on the service with id `i`? -/
def isUpdCallId (i : String) : Event → Bool
  | .updateCall _ i2 _ => i2 == i
  | _ => false

lemma reconStep_skip_noData {st : Settings} {env : Env} {s : Service}
    (h : resolutionOf env s = .noData) : reconStep st env s = ([], 0, false) := by
  rw [reconStep, h]

lemma reconStep_skip_upToDate {st : Settings} {env : Env} {s : Service}
    (h : resolutionOf env s = .upToDate) : reconStep st env s = ([], 0, false) := by
  rw [reconStep, h]

lemma reconStep_failed {st : Settings} {env : Env} {s : Service} {u : String}
    (h : resolutionOf env s = .update u) (hfail : env.updateOk s.id = false) :
    reconStep st env s = ([.updateCall s.name s.id u], 0, false) := by
  rw [reconStep, h]
  simp [hfail]

lemma reconStep_converged {st : Settings} {env : Env} {s : Service} {u fimg : String}
    (h : resolutionOf env s = .update u) (hok : env.updateOk s.id = true)
    (hw : convergenceWait (env.polls s.id) s.image = .converged fimg) :
    reconStep st env s
      = ([.updateCall s.name s.id u, .incCounter s.name s.id s.shortId,
          .notify (mkNotification st s.name s.shortId s.image fimg)], 0, false) := by
  rw [reconStep, h]
  simp [hok, hw]

lemma reconStep_vanished {st : Settings} {env : Env} {s : Service} {u fimg : String}
    (h : resolutionOf env s = .update u) (hok : env.updateOk s.id = true)
    (hw : convergenceWait (env.polls s.id) s.image = .vanished fimg) :
    reconStep st env s
      = ([.updateCall s.name s.id u, .incCounter s.name s.id s.shortId,
          .notify (mkNotification st s.name s.shortId s.image fimg)], 1, false) := by
  rw [reconStep, h]
  simp [hok, hw]

lemma reconStep_diverged {st : Settings} {env : Env} {s : Service} {u : String}
    (h : resolutionOf env s = .update u) (hok : env.updateOk s.id = true)
    (hw : convergenceWait (env.polls s.id) s.image = .diverged) :
    reconStep st env s = ([.updateCall s.name s.id u], 0, true) := by
  rw [reconStep, h]
  simp [hok, hw]

/-- Every event emitted by one reconciliation step is either an update
call on the stepped service, its counter increment, or a notification
naming it. -/
lemma reconStep_events_forms {st : Settings} {env : Env} {s : Service} {e : Event}
    (he : e ∈ (reconStep st env s).1) :
    (∃ img, e = .updateCall s.name s.id img)
    ∨ e = .incCounter s.name s.id s.shortId
    ∨ (∃ p, e = .notify p ∧ p.serviceName = s.name) := by
  rcases hres : resolutionOf env s with _ | _ | u
  · rw [reconStep_skip_noData hres] at he
    simp at he
  · rw [reconStep_skip_upToDate hres] at he
    simp at he
  · cases hok : env.updateOk s.id with
    | false =>
      rw [reconStep_failed hres hok] at he
      simp at he
      exact Or.inl ⟨u, he⟩
    | true =>
      rcases hw : convergenceWait (env.polls s.id) s.image with fimg | fimg | _
      · rw [reconStep_converged hres hok hw] at he
        simp at he
        rcases he with h1 | h2 | h3
        · exact Or.inl ⟨u, h1⟩
        · exact Or.inr (Or.inl h2)
        · exact Or.inr (Or.inr ⟨_, h3, rfl⟩)
      · rw [reconStep_vanished hres hok hw] at he
        simp at he
        rcases he with h1 | h2 | h3
        · exact Or.inl ⟨u, h1⟩
        · exact Or.inr (Or.inl h2)
        · exact Or.inr (Or.inr ⟨_, h3, rfl⟩)
      · rw [reconStep_diverged hres hok hw] at he
        simp at he
        exact Or.inl ⟨u, he⟩

lemma reconStep_countP_inc_ne {st : Settings} {env : Env} {s : Service} {i : String}
    (hne : ¬(s.id = i)) : (reconStep st env s).1.countP (isIncId i) = 0 := by
  rw [List.countP_eq_zero]
  intro e he
  rcases reconStep_events_forms he with ⟨img, rfl⟩ | rfl | ⟨p, rfl, _⟩
  · simp [isIncId]
  · simp [isIncId, hne]
  · simp [isIncId]

lemma reconStep_countP_notify_ne {st : Settings} {env : Env} {s : Service} {n : String}
    (hne : ¬(s.name = n)) : (reconStep st env s).1.countP (isNotifyName n) = 0 := by
  rw [List.countP_eq_zero]
  intro e he
  rcases reconStep_events_forms he with ⟨img, rfl⟩ | rfl | ⟨p, rfl, hp⟩
  · simp [isNotifyName]
  · simp [isNotifyName]
  · simp [isNotifyName, hp, hne]

lemma reconStep_flag_false_wait {st : Settings} {env : Env} {s : Service} {u : String}
    (hres : resolutionOf env s = .update u) (hok : env.updateOk s.id = true)
    (hflag : (reconStep st env s).2.2 = false) :
    convergenceWait (env.polls s.id) s.image ≠ .diverged := by
  intro hw
  rw [reconStep_diverged hres hok hw] at hflag
  simp at hflag

lemma reconStep_countP_one {st : Settings} {env : Env} {s : Service} {u : String}
    (hres : resolutionOf env s = .update u) (hok : env.updateOk s.id = true)
    (hflag : (reconStep st env s).2.2 = false) :
    (reconStep st env s).1.countP (isIncId s.id) = 1
    ∧ (reconStep st env s).1.countP (isNotifyName s.name) = 1 := by
  have hw := reconStep_flag_false_wait hres hok hflag
  rcases hcw : convergenceWait (env.polls s.id) s.image with fimg | fimg | _
  · rw [reconStep_converged hres hok hcw]
    constructor
    · simp [List.countP_cons, isIncId, isNotifyName]
    · simp [List.countP_cons, isIncId, isNotifyName, mkNotification]
  · rw [reconStep_vanished hres hok hcw]
    constructor
    · simp [List.countP_cons, isIncId, isNotifyName]
    · simp [List.countP_cons, isIncId, isNotifyName, mkNotification]
  · exact absurd hcw hw

lemma reconPass_cons (st : Settings) (env : Env) (s : Service) (rest : List Service) (k : Nat) :
    reconPass st env (s :: rest) k
      = if (reconStep st env s).2.2
        then ((reconStep st env s).1, k + (reconStep st env s).2.1, true)
        else ((reconStep st env s).1 ++ (reconPass st env rest (k + (reconStep st env s).2.1)).1,
              (reconPass st env rest (k + (reconStep st env s).2.1)).2.1,
              (reconPass st env rest (k + (reconStep st env s).2.1)).2.2) := by
  rw [reconPass]

lemma reconPass_flag_false (st : Settings) (env : Env) :
    ∀ (l : List Service) (k : Nat), (reconPass st env l k).2.2 = false →
      ∀ s ∈ l, (reconStep st env s).2.2 = false := by
  intro l
  induction l with
  | nil => intro k _ s hs; simp at hs
  | cons x rest ih =>
    intro k hflag s hs
    rw [reconPass_cons] at hflag
    by_cases hx : (reconStep st env x).2.2
    · rw [if_pos hx] at hflag
      simp at hflag
    · rw [if_neg hx] at hflag
      rcases List.mem_cons.mp hs with rfl | hs2
      · simpa using hx
      · exact ih _ (by simpa using hflag) s hs2

lemma reconPass_events_mem (st : Settings) (env : Env) :
    ∀ (l : List Service) (k : Nat) (e : Event), e ∈ (reconPass st env l k).1 →
      ∃ s ∈ l, e ∈ (reconStep st env s).1 := by
  intro l
  induction l with
  | nil => intro k e he; simp [reconPass] at he
  | cons x rest ih =>
    intro k e he
    rw [reconPass_cons] at he
    by_cases hx : (reconStep st env x).2.2
    · rw [if_pos hx] at he
      exact ⟨x, List.mem_cons_self x rest, by simpa using he⟩
    · rw [if_neg hx] at he
      simp only [] at he
      rcases List.mem_append.mp he with h1 | h2
      · exact ⟨x, List.mem_cons_self x rest, h1⟩
      · obtain ⟨s, hs, hes⟩ := ih _ e h2
        exact ⟨s, List.mem_cons_of_mem x hs, hes⟩

lemma reconPass_emits (st : Settings) (env : Env) :
    ∀ (l : List Service) (k : Nat) (s : Service), s ∈ l →
      (reconPass st env l k).2.2 = false →
      ∀ e ∈ (reconStep st env s).1, e ∈ (reconPass st env l k).1 := by
  intro l
  induction l with
  | nil => intro k s hs; simp at hs
  | cons x rest ih =>
    intro k s hs hflag e he
    have hx : (reconStep st env x).2.2 = false :=
      reconPass_flag_false st env _ k hflag x (List.mem_cons_self x rest)
    rw [reconPass_cons] at hflag
    rw [if_neg (by simp [hx])] at hflag
    rw [reconPass_cons, if_neg (by simp [hx])]
    simp only [] at hflag
    rcases List.mem_cons.mp hs with rfl | hs2
    · exact List.mem_append.mpr (Or.inl he)
    · exact List.mem_append.mpr (Or.inr (ih _ s hs2 hflag e he))

lemma reconPass_countP_inc_zero (st : Settings) (env : Env) :
    ∀ (l : List Service) (k : Nat) (i : String), (∀ s ∈ l, ¬(s.id = i)) →
      (reconPass st env l k).1.countP (isIncId i) = 0 := by
  intro l
  induction l with
  | nil => intro k i _; simp [reconPass]
  | cons x rest ih =>
    intro k i hall
    rw [reconPass_cons]
    by_cases hx : (reconStep st env x).2.2
    · rw [if_pos hx]
      exact reconStep_countP_inc_ne (hall x (List.mem_cons_self x rest))
    · rw [if_neg hx]
      simp only []
      rw [List.countP_append]
      rw [reconStep_countP_inc_ne (hall x (List.mem_cons_self x rest))]
      rw [ih _ i fun s hs => hall s (List.mem_cons_of_mem x hs)]

lemma reconPass_countP_notify_zero (st : Settings) (env : Env) :
    ∀ (l : List Service) (k : Nat) (n : String), (∀ s ∈ l, ¬(s.name = n)) →
      (reconPass st env l k).1.countP (isNotifyName n) = 0 := by
  intro l
  induction l with
  | nil => intro k n _; simp [reconPass]
  | cons x rest ih =>
    intro k n hall
    rw [reconPass_cons]
    by_cases hx : (reconStep st env x).2.2
    · rw [if_pos hx]
      exact reconStep_countP_notify_ne (hall x (List.mem_cons_self x rest))
    · rw [if_neg hx]
      simp only []
      rw [List.countP_append]
      rw [reconStep_countP_notify_ne (hall x (List.mem_cons_self x rest))]
      rw [ih _ n fun s hs => hall s (List.mem_cons_of_mem x hs)]

lemma reconPass_countP_inc_one (st : Settings) (env : Env) :
    ∀ (l : List Service) (k : Nat) (s : Service) (u : String),
      s ∈ l → l.Pairwise (fun a c => a.id ≠ c.id) →
      resolutionOf env s = .update u → env.updateOk s.id = true →
      (reconPass st env l k).2.2 = false →
      (reconPass st env l k).1.countP (isIncId s.id) = 1 := by
  intro l
  induction l with
  | nil => intro k s u hs; simp at hs
  | cons x rest ih =>
    intro k s u hs hpw hres hok hflag
    have hx : (reconStep st env x).2.2 = false :=
      reconPass_flag_false st env _ k hflag x (List.mem_cons_self x rest)
    rw [reconPass_cons] at hflag
    rw [if_neg (by simp [hx])] at hflag
    rw [reconPass_cons, if_neg (by simp [hx])]
    simp only [] at hflag
    simp only []
    rw [List.countP_append]
    rcases List.mem_cons.mp hs with rfl | hs2
    · rw [(reconStep_countP_one hres hok hx).1]
      rw [reconPass_countP_inc_zero st env rest _ s.id
        (fun t ht e => (List.pairwise_cons.mp hpw).1 t ht e.symm)]
    · have hxs : ¬(x.id = s.id) := (List.pairwise_cons.mp hpw).1 s hs2
      rw [reconStep_countP_inc_ne hxs]
      rw [ih _ s u hs2 (List.pairwise_cons.mp hpw).2 hres hok hflag]

lemma reconPass_countP_notify_one (st : Settings) (env : Env) :
    ∀ (l : List Service) (k : Nat) (s : Service) (u : String),
      s ∈ l → l.Pairwise (fun a c => a.name ≠ c.name) →
      resolutionOf env s = .update u → env.updateOk s.id = true →
      (reconPass st env l k).2.2 = false →
      (reconPass st env l k).1.countP (isNotifyName s.name) = 1 := by
  intro l
  induction l with
  | nil => intro k s u hs; simp at hs
  | cons x rest ih =>
    intro k s u hs hpw hres hok hflag
    have hx : (reconStep st env x).2.2 = false :=
      reconPass_flag_false st env _ k hflag x (List.mem_cons_self x rest)
    rw [reconPass_cons] at hflag
    rw [if_neg (by simp [hx])] at hflag
    rw [reconPass_cons, if_neg (by simp [hx])]
    simp only [] at hflag
    simp only []
    rw [List.countP_append]
    rcases List.mem_cons.mp hs with rfl | hs2
    · rw [(reconStep_countP_one hres hok hx).2]
      rw [reconPass_countP_notify_zero st env rest _ s.name
        (fun t ht e => (List.pairwise_cons.mp hpw).1 t ht e.symm)]
    · have hxs : ¬(x.name = s.name) := (List.pairwise_cons.mp hpw).1 s hs2
      rw [reconStep_countP_notify_ne hxs]
      rw [ih _ s u hs2 (List.pairwise_cons.mp hpw).2 hres hok hflag]

lemma runCycle_events (st : Settings) (env : Env) :
    (runCycle st env).1
      = (primingPass st env (getServices st env 0) 1 (getServices st env 0)).1
        ++ (reconPass st env (reconList st env)
             (primingPass st env (getServices st env 0) 1 (getServices st env 0)).2.1).1 := rfl

lemma runCycle_flag (st : Settings) (env : Env) :
    (runCycle st env).2
      = (reconPass st env (reconList st env)
          (primingPass st env (getServices st env 0) 1 (getServices st env 0)).2.1).2.2 := rfl

lemma primingPass_events_shape {st : Settings} {env : Env} {l : List Service} {k : Nat}
    {cur : List Service} {e : Event} (he : e ∈ (primingPass st env l k cur).1) :
    ∃ s ∈ l, e = .primeMetric s.name s.id s.shortId := by
  rw [primingPass_events] at he
  obtain ⟨s, hs, rfl⟩ := List.mem_map.mp he
  exact ⟨s, (List.mem_filter.mp hs).1, rfl⟩

lemma primingPass_countP_inc_zero (st : Settings) (env : Env) (l : List Service) (k : Nat)
    (cur : List Service) (i : String) :
    (primingPass st env l k cur).1.countP (isIncId i) = 0 := by
  rw [List.countP_eq_zero]
  intro e he
  obtain ⟨s, _, rfl⟩ := primingPass_events_shape he
  simp [isIncId]

lemma primingPass_countP_notify_zero (st : Settings) (env : Env) (l : List Service) (k : Nat)
    (cur : List Service) (n : String) :
    (primingPass st env l k cur).1.countP (isNotifyName n) = 0 := by
  rw [List.countP_eq_zero]
  intro e he
  obtain ⟨s, _, rfl⟩ := primingPass_events_shape he
  simp [isNotifyName]

/-- C3: a service whose name exactly matches a blacklist entry
(string equality, hence case-sensitive and without globbing) is removed
from the eligibility set produced by `getServices`, and consequently no
event of the cycle — metric priming, update call, counter increment or
notification — ever refers to a blacklisted name, regardless of digest
staleness.  The hypotheses state the platform invariant that service
names and ids in a listing are unique (docker swarm enforces both);
without it the Python remove-while-iterating loop can skip an element. -/
theorem c3_blacklisted_services_untouched (st : Settings) (env : Env)
    (hn : ∀ k, (env.lists k).Pairwise (fun a c => a.name ≠ c.name))
    (hid : ∀ k, (env.lists k).Pairwise (fun a c => a.id ≠ c.id)) :
    (∀ k, ∀ s ∈ env.lists k, s.name ∈ st.blacklist → s ∉ getServices st env k)
    ∧ (∀ n ∈ st.blacklist, ∀ e ∈ (runCycle st env).1, Event.nameOf e ≠ n) := by
  constructor
  · intro k s _ hbl hs
    exact mem_getServices_not_blacklisted st env k (hn k) (hid k) hs hbl
  · intro n hbl e he
    rw [runCycle_events] at he
    rcases List.mem_append.mp he with hp | hr
    · obtain ⟨s, hs, rfl⟩ := primingPass_events_shape hp
      have hnot := mem_getServices_not_blacklisted st env 0 (hn 0) (hid 0) hs
      intro heq
      rw [Event.nameOf] at heq
      exact hnot (by rw [heq]; exact hbl)
    · obtain ⟨s, hs, hes⟩ := reconPass_events_mem st env _ _ e hr
      rw [reconList_eq] at hs
      have hnot := mem_getServices_not_blacklisted st env _ (hn _) (hid _) hs
      rcases reconStep_events_forms hes with ⟨img, rfl⟩ | rfl | ⟨p, rfl, hp2⟩
      · intro heq
        rw [Event.nameOf] at heq
        exact hnot (by rw [heq]; exact hbl)
      · intro heq
        rw [Event.nameOf] at heq
        exact hnot (by rw [heq]; exact hbl)
      · intro heq
        rw [Event.nameOf] at heq
        exact hnot (by rw [← hp2, heq]; exact hbl)

/-- Fixture: an eligible service with a stale digest. -/
def svcWa : Service := ⟨"ida", "sha", "alpha", "repo/alpha@sha256:A"⟩

/-- Fixture: a blacklisted service with a stale digest. -/
def svcWb : Service := ⟨"idb", "shb", "beta", "repo/beta@sha256:B"⟩

/-- Fixture settings blacklisting `beta`. -/
def stW : Settings := ⟨["beta"], false, false⟩

/-- Fixture environment where both services have registry updates
available. -/
def envW : Env :=
  { lists := fun _ => [svcWa, svcWb]
    registry := fun r => if r = "repo/alpha" then some "sha256:A2" else some "sha256:B2"
    updateOk := fun _ => true
    primeRaises := fun _ => false
    polls := fun _ => [.ok false "converged-img"] }

/-- Witness for C3: in the fixture cycle, the blacklisted service
`beta` is dropped from the eligibility set and no event names it. -/
theorem c3_blacklisted_services_untouched_witness :
    (svcWb ∈ envW.lists 0 ∧ svcWb.name ∈ stW.blacklist ∧ svcWb ∉ getServices stW envW 0)
    ∧ (∀ e ∈ (runCycle stW envW).1, Event.nameOf e ≠ "beta") := by
  have h := c3_blacklisted_services_untouched stW envW
    (fun k => by
      have he : envW.lists k = [svcWa, svcWb] := rfl
      rw [he]
      decide)
    (fun k => by
      have he : envW.lists k = [svcWa, svcWb] := rfl
      rw [he]
      decide)
  constructor
  · exact ⟨by decide, by decide, h.1 0 svcWb (by decide) (by decide)⟩
  · exact h.2 "beta" (by decide)

/-- C5: a service whose pinned digest equals the registry digest
resolves to the falsy `upToDate`, so the cycle issues no update call
for it, fires no notification naming it, and never increments its
counter (its only metric touch is the priming `inc(0)`, which leaves
the counter value unchanged).  Uniqueness of names and ids in the
eligibility set is the platform invariant that lets events be
attributed to services. -/
theorem c5_converged_fleet_fixed_point (st : Settings) (env : Env) (s : Service) (d : String)
    (hn : (reconList st env).Pairwise (fun a c => a.name ≠ c.name))
    (hid : (reconList st env).Pairwise (fun a c => a.id ≠ c.id))
    (hmem : s ∈ reconList st env)
    (hsha : (getImageParts s.image).2 = some d)
    (hreg : env.registry (getImageParts s.image).1 = some d) :
    resolutionOf env s = .upToDate
    ∧ ∀ e ∈ (runCycle st env).1,
        isUpdCallId s.id e = false ∧ isIncId s.id e = false ∧ isNotifyName s.name e = false := by
  have hres : resolutionOf env s = .upToDate := by
    rw [resolutionOf, getUpdatedImage, hreg, hsha]
    simp
  refine ⟨hres, ?_⟩
  intro e he
  rw [runCycle_events] at he
  rcases List.mem_append.mp he with hp | hr
  · obtain ⟨t, _, rfl⟩ := primingPass_events_shape hp
    exact ⟨rfl, rfl, rfl⟩
  · obtain ⟨t, ht, hes⟩ := reconPass_events_mem st env _ _ e hr
    by_cases hts : t = s
    · subst hts
      rw [reconStep_skip_upToDate hres] at hes
      simp at hes
    · have hidne : t.id ≠ s.id :=
        List.Pairwise.forall (fun _ _ h => Ne.symm h) hid ht hmem hts
      have hnamene : t.name ≠ s.name :=
        List.Pairwise.forall (fun _ _ h => Ne.symm h) hn ht hmem hts
      rcases reconStep_events_forms hes with ⟨img, rfl⟩ | rfl | ⟨p, rfl, hp2⟩
      · refine ⟨?_, rfl, rfl⟩
        simp [isUpdCallId, hidne]
      · refine ⟨rfl, ?_, rfl⟩
        simp [isIncId, hidne]
      · refine ⟨rfl, rfl, ?_⟩
        simp [isNotifyName, hp2, hnamene]

/-- C6: a successful update of a service in one cycle increments that
service's counter exactly once and emits exactly one notification
naming it, however many `updating` polls the convergence wait observed
(the poll list of the environment is arbitrary; only divergence of the
whole cycle is excluded). -/
theorem c6_exactly_one_increment_and_notification (st : Settings) (env : Env)
    (s : Service) (u : String)
    (hn : (reconList st env).Pairwise (fun a c => a.name ≠ c.name))
    (hid : (reconList st env).Pairwise (fun a c => a.id ≠ c.id))
    (hmem : s ∈ reconList st env)
    (hres : resolutionOf env s = .update u)
    (hok : env.updateOk s.id = true)
    (hflag : (runCycle st env).2 = false) :
    (runCycle st env).1.countP (isIncId s.id) = 1
    ∧ (runCycle st env).1.countP (isNotifyName s.name) = 1 := by
  rw [runCycle_flag] at hflag
  constructor
  · rw [runCycle_events, List.countP_append, primingPass_countP_inc_zero,
      reconPass_countP_inc_one st env _ _ s u hmem hid hres hok hflag]
  · rw [runCycle_events, List.countP_append, primingPass_countP_notify_zero,
      reconPass_countP_notify_one st env _ _ s u hmem hn hres hok hflag]

/-- C7: when the platform update call fails, the step for that service
emits exactly the update-call event — no counter increment, no
notification, no convergence wait (the step result does not depend on
the environment's polls) — and the pass continues with the remaining
services unchanged. -/
theorem c7_failed_update_isolation (st : Settings) (env : Env) (s : Service) (u : String)
    (hn : (reconList st env).Pairwise (fun a c => a.name ≠ c.name))
    (hid : (reconList st env).Pairwise (fun a c => a.id ≠ c.id))
    (hmem : s ∈ reconList st env)
    (hres : resolutionOf env s = .update u)
    (hfail : env.updateOk s.id = false) :
    reconStep st env s = ([.updateCall s.name s.id u], 0, false)
    ∧ (∀ (rest : List Service) (k : Nat), reconPass st env (s :: rest) k
        = (.updateCall s.name s.id u :: (reconPass st env rest k).1,
           (reconPass st env rest k).2.1, (reconPass st env rest k).2.2))
    ∧ (∀ e ∈ (runCycle st env).1, isIncId s.id e = false ∧ isNotifyName s.name e = false) := by
  have hstep := @reconStep_failed st env s u hres hfail
  refine ⟨hstep, ?_, ?_⟩
  · intro rest k
    rw [reconPass_cons, hstep]
    simp
  · intro e he
    rw [runCycle_events] at he
    rcases List.mem_append.mp he with hp | hr
    · obtain ⟨t, _, rfl⟩ := primingPass_events_shape hp
      exact ⟨rfl, rfl⟩
    · obtain ⟨t, ht, hes⟩ := reconPass_events_mem st env _ _ e hr
      by_cases hts : t = s
      · subst hts
        rw [hstep] at hes
        simp at hes
        subst hes
        exact ⟨rfl, rfl⟩
      · have hidne : t.id ≠ s.id :=
          List.Pairwise.forall (fun _ _ h => Ne.symm h) hid ht hmem hts
        have hnamene : t.name ≠ s.name :=
          List.Pairwise.forall (fun _ _ h => Ne.symm h) hn ht hmem hts
        rcases reconStep_events_forms hes with ⟨img, rfl⟩ | rfl | ⟨p, rfl, hp2⟩
        · exact ⟨rfl, rfl⟩
        · refine ⟨?_, rfl⟩
          simp [isIncId, hidne]
        · refine ⟨rfl, ?_⟩
          simp [isNotifyName, hp2, hnamene]

/-- C8: a failed registry digest query resolves to the falsy `noData`:
the step for that service emits nothing at all (no update call, no
counter change, no notification), the cycle proceeds, and — the retry —
in any later cycle whose eligibility set still holds the service and
whose registry yields an update, the update call for it is issued. -/
theorem c8_registry_failure_skips_service (st : Settings) (env : Env) (s : Service)
    (hn : (reconList st env).Pairwise (fun a c => a.name ≠ c.name))
    (hid : (reconList st env).Pairwise (fun a c => a.id ≠ c.id))
    (hmem : s ∈ reconList st env)
    (hreg : env.registry (getImageParts s.image).1 = none) :
    resolutionOf env s = .noData
    ∧ reconStep st env s = ([], 0, false)
    ∧ (∀ e ∈ (runCycle st env).1,
        isUpdCallId s.id e = false ∧ isIncId s.id e = false ∧ isNotifyName s.name e = false)
    ∧ (∀ (env2 : Env) (u : String), s ∈ reconList st env2 →
        resolutionOf env2 s = .update u → (runCycle st env2).2 = false →
        Event.updateCall s.name s.id u ∈ (runCycle st env2).1) := by
  have hres : resolutionOf env s = .noData := by
    rw [resolutionOf, getUpdatedImage, hreg]
  have hstep := @reconStep_skip_noData st env s hres
  refine ⟨hres, hstep, ?_, ?_⟩
  · intro e he
    rw [runCycle_events] at he
    rcases List.mem_append.mp he with hp | hr
    · obtain ⟨t, _, rfl⟩ := primingPass_events_shape hp
      exact ⟨rfl, rfl, rfl⟩
    · obtain ⟨t, ht, hes⟩ := reconPass_events_mem st env _ _ e hr
      by_cases hts : t = s
      · subst hts
        rw [hstep] at hes
        simp at hes
      · have hidne : t.id ≠ s.id :=
          List.Pairwise.forall (fun _ _ h => Ne.symm h) hid ht hmem hts
        have hnamene : t.name ≠ s.name :=
          List.Pairwise.forall (fun _ _ h => Ne.symm h) hn ht hmem hts
        rcases reconStep_events_forms hes with ⟨img, rfl⟩ | rfl | ⟨p, rfl, hp2⟩
        · refine ⟨?_, rfl, rfl⟩
          simp [isUpdCallId, hidne]
        · refine ⟨rfl, ?_, rfl⟩
          simp [isIncId, hidne]
        · refine ⟨rfl, rfl, ?_⟩
          simp [isNotifyName, hp2, hnamene]
  · intro env2 u hmem2 hres2 hflag2
    rw [runCycle_flag] at hflag2
    have hstepflag : (reconStep st env2 s).2.2 = false :=
      reconPass_flag_false st env2 _ _ hflag2 s hmem2
    have hupd : Event.updateCall s.name s.id u ∈ (reconStep st env2 s).1 := by
      cases hok : env2.updateOk s.id with
      | false =>
        rw [reconStep_failed hres2 hok]
        simp
      | true =>
        rcases hw : convergenceWait (env2.polls s.id) s.image with f | f | _
        · rw [reconStep_converged hres2 hok hw]
          simp
        · rw [reconStep_vanished hres2 hok hw]
          simp
        · exact absurd hw (reconStep_flag_false_wait hres2 hok hstepflag)
    rw [runCycle_events]
    exact List.mem_append.mpr (Or.inr (reconPass_emits st env2 _ _ s hmem2 hflag2 _ hupd))

/-- C1 (amended): when the convergence wait for a service observes
`NotFound`, the outcome is counted as updated — the counter increment
and the notification are emitted — and one extra `get_services` call is
made (the eligibility-set recomputation, visible as the `k + 1` listing
offset for the remainder of the pass); the remaining services of the
cycle are still processed, but they are the remainder of the original
captured list: the recomputed set is only bound to the local `services`
name, which the ongoing `for` iteration never consults again. -/
theorem c1_vanished_counts_updated_continues_original (st : Settings) (env : Env)
    (s : Service) (rest : List Service) (k : Nat) (u fimg : String)
    (hres : resolutionOf env s = .update u)
    (hok : env.updateOk s.id = true)
    (hwait : convergenceWait (env.polls s.id) s.image = .vanished fimg) :
    reconPass st env (s :: rest) k
      = (.updateCall s.name s.id u :: .incCounter s.name s.id s.shortId
          :: .notify (mkNotification st s.name s.shortId s.image fimg)
          :: (reconPass st env rest (k + 1)).1,
         (reconPass st env rest (k + 1)).2.1, (reconPass st env rest (k + 1)).2.2) := by
  have hstep := @reconStep_vanished st env s u fimg hres hok hwait
  rw [reconPass_cons, hstep]
  simp

/-- Fixture: service whose convergence wait observes `NotFound`. -/
def svcA : Service := ⟨"idA", "shA", "a", "repo/a@sha256:OLD"⟩

/-- Fixture: service after `svcA` in the original listing, absent from
the recomputed listing, whose update call fails. -/
def svcB : Service := ⟨"idB", "shB", "b", "repo/b@sha256:OLD"⟩

/-- Fixture: service present only in the recomputed listing. -/
def svcT : Service := ⟨"idT", "shT", "t", "repo/t@sha256:OLD"⟩

/-- Fixture settings with an empty blacklist and no payload flags. -/
def stC1 : Settings := ⟨[], false, false⟩

/-- Fixture environment for C1: the initial listing is `[svcA, svcB]`,
every later listing is `[svcA, svcT]`; all repositories have a new
digest; `svcA` updates and then vanishes during its convergence wait;
`svcB`'s update call fails. -/
def envC1 : Env :=
  { lists := fun k => if k = 0 then [svcA, svcB] else [svcA, svcT]
    registry := fun r =>
      if r = "repo/a" then some "sha256:NEW"
      else if r = "repo/b" then some "sha256:NEW"
      else if r = "repo/t" then some "sha256:NEW"
      else none
    updateOk := fun i => i = "idA"
    primeRaises := fun _ => false
    polls := fun i => if i = "idA" then [.notFound] else [] }

/-- Counterexample for C1 as stated: in `envC1` the convergence wait
for `svcA` observes `NotFound` (the claim's premise), `svcA` is counted
as updated, and the eligibility set is recomputed to `[svcA, svcT]`;
yet the remainder of the cycle processes `svcB` — which is not in the
refreshed set (its update call appears in the trace) — and never
touches `svcT`, which is in the refreshed set.  So the remaining
services are not processed using the refreshed set. -/
theorem c1_counterexample :
    convergenceWait (envC1.polls svcA.id) svcA.image = .vanished svcA.image
    ∧ (runCycle stC1 envC1).1
      = [.primeMetric "a" "idA" "shA", .primeMetric "b" "idB" "shB",
         .updateCall "a" "idA" "repo/a@sha256:NEW", .incCounter "a" "idA" "shA",
         .notify ⟨"a", "shA", none, none⟩,
         .updateCall "b" "idB" "repo/b@sha256:NEW"]
    ∧ svcT ∈ getServices stC1 envC1 1
    ∧ svcB ∉ getServices stC1 envC1 1
    ∧ Event.updateCall "b" "idB" "repo/b@sha256:NEW" ∈ (runCycle stC1 envC1).1
    ∧ (∀ e ∈ (runCycle stC1 envC1).1, Event.nameOf e ≠ "t") := by
  refine ⟨rfl, rfl, by decide, by decide, by decide, by decide⟩

/-- Witness for C1 (amended) at a concrete input. -/
theorem c1_vanished_counts_updated_continues_original_witness :
    reconPass stC1 envC1 [svcA, svcB] 1
      = (.updateCall "a" "idA" "repo/a@sha256:NEW" :: .incCounter "a" "idA" "shA"
          :: .notify (mkNotification stC1 "a" "shA" svcA.image svcA.image)
          :: (reconPass stC1 envC1 [svcB] 2).1,
         (reconPass stC1 envC1 [svcB] 2).2.1, (reconPass stC1 envC1 [svcB] 2).2.2) :=
  c1_vanished_counts_updated_continues_original stC1 envC1 svcA [svcB] 1
    "repo/a@sha256:NEW" svcA.image rfl rfl rfl

/-- C2 (amended): the priming pass creates (with value 0, not
incrementing) the counter series of every service of the original
eligibility set whose priming read does not raise; on each raise the
eligibility set is recomputed (once per missing service), but the
priming iteration itself keeps consuming the original list — the
refreshed set only becomes visible to the subsequent reconciliation
pass, whose list is the `m`-th listing, `m` being the number of
services that raised (the 0-th listing when none raised). -/
theorem c2_priming_initializes_and_recomputes (st : Settings) (env : Env) :
    (primingPass st env (getServices st env 0) 1 (getServices st env 0)).1
      = ((getServices st env 0).filter (fun s => !(env.primeRaises s.id))).map
          (fun s => Event.primeMetric s.name s.id s.shortId)
    ∧ reconList st env
        = getServices st env
            (((getServices st env 0).filter (fun s => env.primeRaises s.id)).length) :=
  ⟨primingPass_events st env _ 1 _, reconList_eq st env⟩

/-- Fixture: service that vanishes during metric priming. -/
def svcP : Service := ⟨"idP", "shP", "p", "repo/p@sha256:OLD"⟩

/-- Fixture: service after `svcP` in the original listing. -/
def svcB2 : Service := ⟨"idB2", "shB2", "b2", "repo/b2@sha256:OLD"⟩

/-- Fixture: service present only in the recomputed listing. -/
def svcC2 : Service := ⟨"idC2", "shC2", "c2", "repo/c2@sha256:OLD"⟩

/-- Fixture settings for C2. -/
def stC2 : Settings := ⟨[], false, false⟩

/-- Fixture environment for C2: initial listing `[svcP, svcB2]`, later
listings `[svcC2]`; `svcP` raises `NotFound` during priming; the
registry is unreachable for every repository, so the reconciliation
pass emits nothing. -/
def envC2 : Env :=
  { lists := fun k => if k = 0 then [svcP, svcB2] else [svcC2]
    registry := fun _ => none
    updateOk := fun _ => false
    primeRaises := fun i => i = "idP"
    polls := fun _ => [] }

/-- Counterexample for C2 as stated: in `envC2` a service (`svcP`) is
reported missing during priming (the claim's premise) and the set is
recomputed to `[svcC2]`; yet priming continues over the original list —
it primes `svcB2`, which the refreshed set does not contain, and never
primes `svcC2`, which is the whole refreshed set.  So priming does not
continue over the refreshed set. -/
theorem c2_counterexample :
    envC2.primeRaises svcP.id = true
    ∧ (runCycle stC2 envC2).1 = [.primeMetric "b2" "idB2" "shB2"]
    ∧ reconList stC2 envC2 = [svcC2]
    ∧ Event.primeMetric "c2" "idC2" "shC2" ∉ (runCycle stC2 envC2).1
    ∧ Event.primeMetric "b2" "idB2" "shB2" ∈ (runCycle stC2 envC2).1 := by
  refine ⟨rfl, rfl, rfl, by decide, by decide⟩

/-- Fixture: service already pinned to the registry digest. -/
def svcG : Service := ⟨"idG", "shG", "g", "repo/g@sha256:SAME"⟩

/-- Fixture environment for C5: the registry digest equals the pinned
digest. -/
def envC5 : Env :=
  { lists := fun _ => [svcG]
    registry := fun r => if r = "repo/g" then some "sha256:SAME" else none
    updateOk := fun _ => true
    primeRaises := fun _ => false
    polls := fun _ => [.ok false "x"] }

/-- Witness for C5 at a concrete input. -/
theorem c5_converged_fleet_fixed_point_witness :
    resolutionOf envC5 svcG = .upToDate
    ∧ ∀ e ∈ (runCycle stC1 envC5).1,
        isUpdCallId svcG.id e = false ∧ isIncId svcG.id e = false
        ∧ isNotifyName svcG.name e = false :=
  c5_converged_fleet_fixed_point stC1 envC5 svcG "sha256:SAME"
    (by decide) (by decide) (by decide) (by decide) (by decide)

/-- Fixture: service with a stale digest whose update succeeds after
two `updating` polls. -/
def svcF : Service := ⟨"idF", "shF", "f", "repo/f@sha256:OLD"⟩

/-- Fixture environment for C6: convergence observed after two
`updating` polls. -/
def envC6 : Env :=
  { lists := fun _ => [svcF]
    registry := fun r => if r = "repo/f" then some "sha256:NEW" else none
    updateOk := fun _ => true
    primeRaises := fun _ => false
    polls := fun _ => [.ok true "mid1", .ok true "mid2", .ok false "repo/f@sha256:NEW"] }

/-- Witness for C6 at a concrete input (two `updating` polls before
convergence, still exactly one increment and one notification). -/
theorem c6_exactly_one_increment_and_notification_witness :
    (runCycle stC1 envC6).1.countP (isIncId svcF.id) = 1
    ∧ (runCycle stC1 envC6).1.countP (isNotifyName svcF.name) = 1 :=
  c6_exactly_one_increment_and_notification stC1 envC6 svcF "repo/f@sha256:NEW"
    (by decide) (by decide) (by decide) (by decide) (by decide) (by decide)

/-- Fixture: service whose platform update call fails. -/
def svcH : Service := ⟨"idH", "shH", "h", "repo/h@sha256:OLD"⟩

/-- Fixture environment for C7: a stale digest but a failing update
call. -/
def envC7 : Env :=
  { lists := fun _ => [svcH]
    registry := fun r => if r = "repo/h" then some "sha256:NEW" else none
    updateOk := fun _ => false
    primeRaises := fun _ => false
    polls := fun _ => [.ok false "x"] }

/-- Witness for C7 at a concrete input. -/
theorem c7_failed_update_isolation_witness :
    reconStep stC1 envC7 svcH = ([.updateCall svcH.name svcH.id "repo/h@sha256:NEW"], 0, false)
    ∧ (∀ (rest : List Service) (k : Nat), reconPass stC1 envC7 (svcH :: rest) k
        = (.updateCall svcH.name svcH.id "repo/h@sha256:NEW" :: (reconPass stC1 envC7 rest k).1,
           (reconPass stC1 envC7 rest k).2.1, (reconPass stC1 envC7 rest k).2.2))
    ∧ (∀ e ∈ (runCycle stC1 envC7).1,
        isIncId svcH.id e = false ∧ isNotifyName svcH.name e = false) :=
  c7_failed_update_isolation stC1 envC7 svcH "repo/h@sha256:NEW"
    (by decide) (by decide) (by decide) (by decide) (by decide)

/-- Fixture: service whose registry lookup fails. -/
def svcX : Service := ⟨"idX", "shX", "x", "repo/x@sha256:OLD"⟩

/-- Fixture environment for C8: the registry is unreachable. -/
def envC8 : Env :=
  { lists := fun _ => [svcX]
    registry := fun _ => none
    updateOk := fun _ => true
    primeRaises := fun _ => false
    polls := fun _ => [.ok false "x"] }

/-- Witness for C8 at a concrete input. -/
theorem c8_registry_failure_skips_service_witness :
    resolutionOf envC8 svcX = .noData
    ∧ reconStep stC1 envC8 svcX = ([], 0, false)
    ∧ (∀ e ∈ (runCycle stC1 envC8).1,
        isUpdCallId svcX.id e = false ∧ isIncId svcX.id e = false
        ∧ isNotifyName svcX.name e = false)
    ∧ (∀ (env2 : Env) (u : String), svcX ∈ reconList stC1 env2 →
        resolutionOf env2 svcX = .update u → (runCycle stC1 env2).2 = false →
        Event.updateCall svcX.name svcX.id u ∈ (runCycle stC1 env2).1) :=
  c8_registry_failure_skips_service stC1 envC8 svcX
    (by decide) (by decide) (by decide) (by decide)
